import Mathlib

/-!
Verification development for the Orthanc advanced-storage plugin
(`src/Plugin`).  The C++ sources are shallowly embedded: strings and
`boost::filesystem::path` values are `List Char`, the process-wide
configuration statics of `CustomData.cpp` / `PathGenerator.cpp` are a
`Config` record, the filesystem is an association list from absolute
paths to entries, and functions that throw `OrthancException` return
`Except Unit _`.
-/

deriving instance DecidableEq for Except

/-- A C++ `std::string` as its character list. -/
abbrev Str := List Char

/-- A `boost::filesystem::path` as its native string (POSIX rules,
`make_preferred` is the identity). -/
abbrev PathStr := Str

/-- Model of `path::is_absolute()` on POSIX: the string starts with a separator. -/
def isAbsolutePath (p : PathStr) : Bool :=
  match p with
  | [] => false
  | c :: _ => c = '/'

/-- Model of `boost::filesystem::path::operator/=` (v3 semantics): append the
right-hand string, inserting a separator when the left part is nonempty,
does not already end with one, and the right part does not start with
one.  (Unlike `std::filesystem`, an absolute right-hand side is
concatenated, not substituted.) -/
def appendPath (a b : PathStr) : PathStr :=
  if b = [] then a
  else if a = [] then b
  else
    match b with
    | [] => a
    | c :: _ =>
      if c = '/' then a ++ b
      else
        match a.getLast? with
        | some d => if d = '/' then a ++ b else a ++ '/' :: b
        | none => b

/-- Model of `path::parent_path()` for separator-normalised paths: drop the last
component.  `parentPath "/a/b" = "/a"`, `parentPath "/a" = "/"`,
`parentPath "/" = ""`, `parentPath "a" = ""`. -/
def parentPath (p : PathStr) : PathStr :=
  if p = ['/'] then []
  else
    match p.reverse.dropWhile (fun c => c ≠ '/') with
    | [] => []
    | [_] => ['/']
    | _ :: rest => rest.reverse

theorem dropWhile_length_le (q : Char → Bool) (l : List Char) :
    (l.dropWhile q).length ≤ l.length := by
  induction l with
  | nil => simp [List.dropWhile]
  | cons c rest ih =>
    by_cases h : q c
    · simp only [List.dropWhile, h]
      exact Nat.le_succ_of_le ih
    · simp [List.dropWhile, h]

theorem parentPath_length_lt (p : PathStr) (h : p ≠ []) :
    (parentPath p).length < p.length := by
  unfold parentPath
  by_cases h1 : p = ['/']
  · simp [h1]
  · simp only [h1, if_false]
    have hle : (p.reverse.dropWhile (fun c => c ≠ '/')).length ≤ p.length := by
      calc (p.reverse.dropWhile (fun c => c ≠ '/')).length
          ≤ p.reverse.length := dropWhile_length_le _ _
        _ = p.length := List.length_reverse _
    rcases hd : p.reverse.dropWhile (fun c => c ≠ '/') with _ | ⟨x, _ | ⟨y, rest⟩⟩
    · simpa using List.length_pos.mpr h
    · -- the kept suffix is the single leading separator, so `p` has ≥ 2 chars
      simp only [List.length_cons, List.length_nil]
      rcases p with _ | ⟨c, _ | ⟨c2, prest⟩⟩
      · exact absurd rfl h
      · by_cases hc : c = '/'
        · exact absurd (by simp [hc]) h1
        · rw [show [c].reverse = [c] by simp] at hd
          simp [List.dropWhile, hc] at hd
      · simp
    · rw [hd] at hle
      simp only [List.length_reverse, List.length_cons]
      simp only [List.length_cons] at hle
      omega

/-- Helper for `ancestorChain`: the recursion on `parentPath` phrased
structurally over a fuel that the caller instantiates with `p.length`,
which always suffices since `parentPath` shortens its argument. -/
def ancestorChainFuel : Nat → PathStr → List PathStr
  | 0, _ => []
  | n + 1, p => if p = [] then [] else parentPath p :: ancestorChainFuel n (parentPath p)

/-- Iterating `path::parent_path()`: all proper prefixes of `p` ending at
a separator, down to the empty path. -/
def ancestorChain (p : PathStr) : List PathStr :=
  ancestorChainFuel p.length p

theorem ancestorChainFuel_adequate (n : Nat) (p : PathStr) (h : p.length ≤ n) :
    ancestorChainFuel n p = ancestorChain p := by
  induction n using Nat.strong_induction_on generalizing p with
  | _ n ih =>
    match n with
    | 0 =>
      have hp : p = [] := List.length_eq_zero.mp (Nat.le_zero.mp h)
      rw [hp]
      rfl
    | m + 1 =>
      by_cases hp : p = []
      · rw [hp]; rfl
      · have h1 : (parentPath p).length ≤ m :=
          Nat.le_of_lt_succ (Nat.lt_of_lt_of_le (parentPath_length_lt p hp) h)
        have h2 : p.length - 1 < m + 1 := by
          have := List.length_pos.mpr hp
          omega
        have h3 : (parentPath p).length ≤ p.length - 1 := by
          have := parentPath_length_lt p hp
          omega
        rcases hl : p.length with _ | k
        · exact absurd (List.length_eq_zero.mp hl) hp
        · show ancestorChainFuel (m + 1) p = ancestorChainFuel p.length p
          rw [hl]
          simp only [ancestorChainFuel, hp, if_false]
          rw [ih m (Nat.lt_succ_self m) (parentPath p) h1,
            ih k (by omega) (parentPath p) (by omega)]

theorem ancestorChain_cons (p : PathStr) (h : p ≠ []) :
    ancestorChain p = parentPath p :: ancestorChain (parentPath p) := by
  show ancestorChainFuel p.length p = _
  rcases hl : p.length with _ | k
  · exact absurd (List.length_eq_zero.mp hl) h
  · simp only [ancestorChainFuel, h, if_false]
    rw [ancestorChainFuel_adequate k (parentPath p)
      (by have := parentPath_length_lt p h; omega)]

/-- Strict ancestry: `a` lies strictly above `p` in the directory tree (and is not the
empty path). -/
def strictAncestor (a p : PathStr) : Prop :=
  a ≠ [] ∧ a ∈ ancestorChain p

instance (a p : PathStr) : Decidable (strictAncestor a p) := by
  unfold strictAncestor; infer_instance

/-- Model of `std::string::find(needle) != npos`. -/
def containsSub (needle : Str) : Str → Bool
  | [] => needle.isEmpty
  | c :: rest => needle.isPrefixOf (c :: rest) || containsSub needle rest

/-- Model of `Orthanc::Toolbox::SplitString`: split on a separator character; `n`
separators produce `n + 1` pieces. -/
def splitChar (sep : Char) : Str → List Str
  | [] => [[]]
  | c :: rest =>
    match splitChar sep rest with
    | [] => if c = sep then [[], []] else [[c]]
    | piece :: more =>
      if c = sep then [] :: piece :: more else (c :: piece) :: more

/-- Model of `Orthanc::Toolbox::JoinStrings` with a one-character separator. -/
def joinWith (sep : Char) : List Str → Str
  | [] => []
  | [x] => x
  | x :: y :: xs => x ++ sep :: joinWith sep (y :: xs)

theorem splitChar_ne_nil (sep : Char) (l : Str) : splitChar sep l ≠ [] := by
  cases l with
  | nil => simp [splitChar]
  | cons c rest =>
    simp only [splitChar]
    rcases splitChar sep rest with _ | ⟨piece, more⟩ <;> by_cases h : c = sep <;>
      simp [h]

theorem splitChar_no_sep (sep : Char) (l : Str)
    (h : ∀ c ∈ l, c ≠ sep) : splitChar sep l = [l] := by
  induction l with
  | nil => simp [splitChar]
  | cons c rest ih =>
    have hc : c ≠ sep := h c (by simp)
    have hrest : splitChar sep rest = [rest] := ih (fun x hx => h x (by simp [hx]))
    simp [splitChar, hrest, hc]

theorem splitChar_append_sep (sep : Char) (a b : Str)
    (h : ∀ c ∈ a, c ≠ sep) :
    splitChar sep (a ++ sep :: b) = a :: splitChar sep b := by
  induction a with
  | nil =>
    rcases hsp : splitChar sep b with _ | ⟨piece, more⟩
    · exact absurd hsp (splitChar_ne_nil sep b)
    · simp [splitChar, hsp]
  | cons c rest ih =>
    have hc : c ≠ sep := h c (by simp)
    have hrest := ih (fun x hx => h x (by simp [hx]))
    show splitChar sep (c :: (rest ++ sep :: b)) = (c :: rest) :: splitChar sep b
    simp only [splitChar]
    rw [hrest]
    simp [hc]

/-!
## Configuration and the `CustomData` record

The process-wide statics of `CustomData.cpp` (`orthancCoreRootPath_`,
`storagesRootPaths_`, `currentWriteStorageId_`, `maxPathLength_`,
`otherAttachmentsPrefix_`) and `PathGenerator.cpp` (`namingScheme_`)
gathered in one record.
-/

structure Config where
  orthancCoreRootPath : PathStr
  storagesRootPaths : List (Str × PathStr)
  currentWriteStorageId : Str
  maxPathLength : Nat
  otherAttachmentsPrefixPath : Str
  namingScheme : Str
deriving DecidableEq

/-- Model of `PathGenerator::IsDefaultNamingScheme`. -/
def IsDefaultNamingScheme (cfg : Config) : Bool :=
  cfg.namingScheme = "OrthancDefault".toList

/-- Model of `CustomData::IsMultipleStoragesEnabled`. -/
def IsMultipleStoragesEnabled (cfg : Config) : Bool :=
  !cfg.storagesRootPaths.isEmpty && !cfg.currentWriteStorageId.isEmpty

/-- Model of `CustomData::GetStorageRootPath`: throws `ParameterOutOfRange` when
the storage id is not registered. -/
def GetStorageRootPath (cfg : Config) (storageId : Str) : Except Unit PathStr :=
  match cfg.storagesRootPaths.find? (fun e => decide (e.1 = storageId)) with
  | some e => .ok e.2
  | none => .error ()

/-- Model of `CustomData::GetOrthancCoreRootPath`: throws when no core storage
directory is defined. -/
def GetOrthancCoreRootPath (cfg : Config) : Except Unit PathStr :=
  if cfg.orthancCoreRootPath = [] then .error () else .ok cfg.orthancCoreRootPath

/-- Model of `CustomData::GetCurrentWriteRootPath`. -/
def GetCurrentWriteRootPath (cfg : Config) : Except Unit PathStr :=
  if IsMultipleStoragesEnabled cfg then
    GetStorageRootPath cfg cfg.currentWriteStorageId
  else
    GetOrthancCoreRootPath cfg

/-- Model of `CustomData::IsARootPath`: the core root or any registered storage
root. -/
def IsARootPath (cfg : Config) (p : PathStr) : Bool :=
  p = cfg.orthancCoreRootPath || cfg.storagesRootPaths.any (fun e => decide (e.2 = p))

/-- All registered roots (the core root plus every storage root). -/
def registeredRoots (cfg : Config) : List PathStr :=
  cfg.orthancCoreRootPath :: cfg.storagesRootPaths.map (fun e => e.2)

/-- Modelled from the spec: `Orthanc::Toolbox::IsUuid` lives in the
Orthanc framework, outside this repository.  Per the spec, the legacy
layout requires "a well-formed UUID": 36 characters, hyphens at
positions 8, 13, 18 and 23, alphanumerics elsewhere. -/
def isUuid (s : Str) : Bool :=
  s.length = 36 &&
    (List.range 36).all (fun i =>
      if i = 8 || i = 13 || i = 18 || i = 23 then s.getD i ' ' = '-'
      else (s.getD i ' ').isAlphanum)

/-- Model of `PathGenerator::GetLegacyRelativePath`: `uuid[0..2] / uuid[2..4] /
uuid`, throwing when the identifier is not a well-formed UUID. -/
def GetLegacyRelativePath (uuid : Str) : Except Unit PathStr :=
  if isUuid uuid then
    .ok (appendPath (appendPath (appendPath [] (uuid.take 2)) ((uuid.drop 2).take 2)) uuid)
  else
    .error ()

/-- The per-attachment location record of `CustomData.h` (the unused
`hasBeenAdopted_` field is omitted: nothing in the sources ever assigns
or reads it). -/
structure CustomData where
  path : PathStr := []
  isOwner : Bool := true
  storageId : Str := []
  uuid : Str := []
deriving DecidableEq

/-- Model of `CustomData::IsRelativePath`. -/
def CustomData.IsRelativePath (cd : CustomData) : Bool :=
  !isAbsolutePath cd.path

/-- Model of `CustomData::CreateForMoveStorage`. -/
def CustomData.CreateForMoveStorage (current : CustomData) (targetStorageId : Str) :
    CustomData :=
  { uuid := current.uuid, path := current.path, isOwner := current.isOwner,
    storageId := targetStorageId }

/-- Model of `CustomData::CreateForAdoption`: the identifier and storage id stay
empty. -/
def CustomData.CreateForAdoption (path : PathStr) (takeOwnership : Bool) : CustomData :=
  { isOwner := takeOwnership, path := path, uuid := [], storageId := [] }

/-- Model of `CustomData::GetAbsolutePath`: a non-owned record returns its stored
(absolute) path; otherwise the storage root (or the core root when the
storage id is empty) is resolved and the stored path — or the legacy
layout when it is empty — appended. -/
def CustomData.GetAbsolutePath (cfg : Config) (cd : CustomData) : Except Unit PathStr :=
  if !cd.isOwner then .ok cd.path
  else do
    let root ← if cd.storageId ≠ [] then GetStorageRootPath cfg cd.storageId
               else GetOrthancCoreRootPath cfg
    if cd.path ≠ [] then
      .ok (appendPath root cd.path)
    else do
      let lp ← GetLegacyRelativePath cd.uuid
      .ok (appendPath root lp)

/-- Model of `CustomData::CreateForWriting`: owner, current write storage; when
the computed absolute path contains `".."` or `"="`, or exceeds the
configured maximum length, the relative path is replaced by the legacy
layout (under the other-attachments prefix when one is configured). -/
def CustomData.CreateForWriting (cfg : Config) (uuid : Str) (relativePath : PathStr) :
    Except Unit CustomData := do
  let cd : CustomData :=
    { isOwner := true, uuid := uuid, storageId := cfg.currentWriteStorageId,
      path := relativePath }
  let rootPath ← GetCurrentWriteRootPath cfg
  let absolutePath := appendPath rootPath cd.path
  if containsSub "..".toList absolutePath || containsSub "=".toList absolutePath then do
    let lp ← GetLegacyRelativePath uuid
    let p2 := if cfg.otherAttachmentsPrefixPath ≠ [] then
                appendPath cfg.otherAttachmentsPrefixPath lp
              else lp
    .ok { cd with path := p2 }
  else if absolutePath.length > cfg.maxPathLength then do
    let lp ← GetLegacyRelativePath uuid
    let p2 := if cfg.otherAttachmentsPrefixPath ≠ [] then
                appendPath cfg.otherAttachmentsPrefixPath lp
              else lp
    .ok { cd with path := p2 }
  else
    .ok cd

/-- Association-list write with overwrite (`std::map::operator[]` for
the serialization dictionary, and the host database's
`UpdateAttachmentCustomData`). -/
def setAssoc : List (Str × Str) → Str → Str → List (Str × Str)
  | [], k, v => [(k, v)]
  | e :: rest, k, v => if e.1 = k then (k, v) :: rest else e :: setAssoc rest k v

/-- Association-list lookup (`std::map::find`). -/
def getAssoc : List (Str × Str) → Str → Option Str
  | [], _ => none
  | e :: rest, k => if e.1 = k then some e.2 else getAssoc rest k

/-- Model of `CustomData::ToString`: nothing at all under the default naming
scheme with a single storage; otherwise the `key=value` pieces `v`,
optional `p`, optional `s`, and `o`, joined with `';'`. -/
def CustomData.ToString (cfg : Config) (cd : CustomData) : Str :=
  if IsDefaultNamingScheme cfg && !IsMultipleStoragesEnabled cfg then []
  else
    let vs : List Str := ["v=1".toList]
    let vs := if !IsDefaultNamingScheme cfg || cd.isOwner then
                vs ++ ["p=".toList ++ cd.path]
              else vs
    let vs := if IsMultipleStoragesEnabled cfg && cd.isOwner then
                vs ++ ["s=".toList ++ cd.storageId]
              else vs
    let vs := vs ++ [if cd.isOwner then "o=1".toList else "o=0".toList]
    joinWith ';' vs

/-- Model of `CustomData::FromString`: an empty blob yields the defaults
(owner, empty path, core storage); otherwise the blob is split on `';'`
and `'='` into a dictionary (pieces that do not split into exactly two
parts are skipped), the version must be `1`, a non-owner record must
carry a path. -/
def CustomData.FromString (uuid : Str) (blob : Str) : Except Unit CustomData :=
  if blob = [] then .ok { uuid := uuid }
  else
    let pieces := splitChar ';' blob
    let dico := pieces.foldl (fun m piece =>
      match splitChar '=' piece with
      | [k, v] => setAssoc m k v
      | _ => m) []
    match getAssoc dico "v".toList with
    | none => .error ()
    | some ver =>
      if ver ≠ "1".toList then .error ()
      else
        let owner : Bool := match getAssoc dico "o".toList with
                            | some ov => ov = "1".toList
                            | none => false
        if !owner && getAssoc dico "p".toList = none then .error ()
        else
          .ok { uuid := uuid, isOwner := owner,
                path := (getAssoc dico "p".toList).getD [],
                storageId := (getAssoc dico "s".toList).getD [] }

/-- Model of `PathGenerator::SetNamingScheme`: configuration-time validation of a
naming scheme (`.error` models the thrown `BadFileFormat`). -/
def SetNamingScheme (namingScheme : Str) (isOverwriteInstances : Bool) :
    Except Unit Unit :=
  if namingScheme ≠ "OrthancDefault".toList then
    if !isOverwriteInstances then
      if !containsSub "{UUID}".toList namingScheme then .error () else .ok ()
    else
      if containsSub "{UUID}".toList namingScheme
          || containsSub "{OrthancInstanceID}".toList namingScheme then .ok ()
      else if !containsSub "PatientID".toList namingScheme
          || !containsSub "StudyInstanceUID".toList namingScheme
          || !containsSub "SeriesInstanceUID".toList namingScheme
          || !containsSub "SOPInstanceUID".toList namingScheme then .error ()
      else .ok ()
  else .ok ()

/-- The legacy-layout scenario of the design document: the identifier
`00f7fd8b-47bd-8c3a-ff91-7804d180cdbc` yields
`00/f7/00f7fd8b-47bd-8c3a-ff91-7804d180cdbc`. -/
theorem legacyRelativePath_scenario :
    GetLegacyRelativePath "00f7fd8b-47bd-8c3a-ff91-7804d180cdbc".toList
      = .ok "00/f7/00f7fd8b-47bd-8c3a-ff91-7804d180cdbc".toList := by decide

/-!
## Filesystem model

A finite map from absolute paths to entries.  `fsRemoveOp` models
`boost::filesystem::remove`: a missing path is a silent no-op, a file or
an empty directory is removed, a non-empty directory raises a
`filesystem_error` (the `.error` case).
-/

/-- A filesystem entry: a regular file with its content, or a directory. -/
inductive FsEntry
  | file (content : Str)
  | dir
deriving DecidableEq

abbrev Fs := List (PathStr × FsEntry)

def fsLookup : Fs → PathStr → Option FsEntry
  | [], _ => none
  | e :: rest, p => if e.1 = p then some e.2 else fsLookup rest p

def fsErase : Fs → PathStr → Fs
  | [], _ => []
  | e :: rest, p => if e.1 = p then fsErase rest p else e :: fsErase rest p

def fsInsert (fs : Fs) (p : PathStr) (e : FsEntry) : Fs :=
  (p, e) :: fsErase fs p

/-- Does some entry of the filesystem have `p` as its parent directory? -/
def hasChild : Fs → PathStr → Bool
  | [], _ => false
  | e :: rest, p =>
    (decide (e.1 ≠ p) && decide (parentPath e.1 = p)) || hasChild rest p

/-- Model of `boost::filesystem::remove`: `(new filesystem, whether something was
removed)`; `.error` models the exception on a non-empty directory. -/
def fsRemoveOp (fs : Fs) (p : PathStr) : Except Unit (Fs × Bool) :=
  match fsLookup fs p with
  | none => .ok (fs, false)
  | some (.file _) => .ok (fsErase fs p, true)
  | some .dir => if hasChild fs p then .error () else .ok (fsErase fs p, true)

/-- The loop of `RemoveEmptyParentDirectories` (`Helpers.cpp`): walk
upwards removing entries until a registered root is met or a removal
raises (the exception is swallowed, keeping the removals made so far).
The extra stop at the empty path covers the only situation in which the
C++ loop would spin forever without ever changing the filesystem
(`remove("")` is a silent no-op and `"".parent_path() == ""`). -/
def pruneLoopFuel (cfg : Config) : Nat → Fs → PathStr → Fs
  | 0, fs, _ => fs
  | n + 1, fs, parent =>
    if parent = [] then fs
    else if IsARootPath cfg parent then fs
    else
      match fsRemoveOp fs parent with
      | .error _ => fs
      | .ok r => pruneLoopFuel cfg n r.1 (parentPath parent)

def pruneLoop (cfg : Config) (fs : Fs) (parent : PathStr) : Fs :=
  pruneLoopFuel cfg parent.length fs parent

theorem pruneLoopFuel_adequate (cfg : Config) (n : Nat) (fs : Fs) (parent : PathStr)
    (h : parent.length ≤ n) :
    pruneLoopFuel cfg n fs parent = pruneLoop cfg fs parent := by
  induction n using Nat.strong_induction_on generalizing fs parent with
  | _ n ih =>
    match n with
    | 0 =>
      have hp : parent = [] := List.length_eq_zero.mp (Nat.le_zero.mp h)
      rw [hp]
      rfl
    | m + 1 =>
      by_cases hp : parent = []
      · rw [hp]; rfl
      · rcases hl : parent.length with _ | k
        · exact absurd (List.length_eq_zero.mp hl) hp
        · show pruneLoopFuel cfg (m + 1) fs parent = pruneLoopFuel cfg parent.length fs parent
          rw [hl]
          simp only [pruneLoopFuel, hp, if_false]
          by_cases hr : IsARootPath cfg parent
          · simp [hr]
          · simp only [hr, Bool.false_eq_true, if_false]
            rcases hrm : fsRemoveOp fs parent with _ | r
            · rfl
            · have hlt := parentPath_length_lt parent hp
              show pruneLoopFuel cfg m r.1 (parentPath parent) =
                pruneLoopFuel cfg k r.1 (parentPath parent)
              rw [ih m (Nat.lt_succ_self m) r.1 (parentPath parent) (by omega),
                ih k (by omega) r.1 (parentPath parent) (by omega)]

/-- The one-step unfolding of the pruning loop. -/
theorem pruneLoop_eq (cfg : Config) (fs : Fs) (parent : PathStr) :
    pruneLoop cfg fs parent =
      if parent = [] then fs
      else if IsARootPath cfg parent then fs
      else
        match fsRemoveOp fs parent with
        | .error _ => fs
        | .ok r => pruneLoop cfg r.1 (parentPath parent) := by
  by_cases hp : parent = []
  · rw [hp]; rfl
  · rcases hl : parent.length with _ | k
    · exact absurd (List.length_eq_zero.mp hl) hp
    · show pruneLoopFuel cfg parent.length fs parent = _
      rw [hl]
      simp only [pruneLoopFuel, hp, if_false]
      by_cases hr : IsARootPath cfg parent
      · simp [hr]
      · simp only [hr, Bool.false_eq_true, if_false]
        rcases hrm : fsRemoveOp fs parent with _ | r
        · rfl
        · have hlt := parentPath_length_lt parent hp
          show pruneLoopFuel cfg k r.1 (parentPath parent) =
            pruneLoop cfg r.1 (parentPath parent)
          rw [pruneLoopFuel_adequate cfg k r.1 (parentPath parent) (by omega)]

/-- Model of `RemoveEmptyParentDirectories` (`Helpers.cpp`). -/
def RemoveEmptyParentDirectories (cfg : Config) (fs : Fs) (path : PathStr) : Fs :=
  pruneLoop cfg fs (parentPath path)

/-- Model of `boost::filesystem::create_directories`: create every missing
directory on the chain down to `p`; fails (`none`, modelling the thrown
`filesystem_error`) when some component already exists as a regular
file.  `""` and `"/"` always exist. -/
def mkDirChainFuel : Nat → Fs → PathStr → Option Fs
  | 0, fs, _ => some fs
  | n + 1, fs, p =>
    if p = [] ∨ p = ['/'] then some fs
    else
      match mkDirChainFuel n fs (parentPath p) with
      | none => none
      | some fs2 =>
        match fsLookup fs2 p with
        | some .dir => some fs2
        | some (.file _) => none
        | none => some (fsInsert fs2 p .dir)

def mkDirChain (fs : Fs) (p : PathStr) : Option Fs :=
  mkDirChainFuel p.length fs p

theorem mkDirChainFuel_adequate (n : Nat) (fs : Fs) (p : PathStr)
    (h : p.length ≤ n) :
    mkDirChainFuel n fs p = mkDirChain fs p := by
  induction n using Nat.strong_induction_on generalizing fs p with
  | _ n ih =>
    match n with
    | 0 =>
      have hp : p = [] := List.length_eq_zero.mp (Nat.le_zero.mp h)
      rw [hp]
      rfl
    | m + 1 =>
      by_cases hp : p = [] ∨ p = ['/']
      · show _ = mkDirChainFuel p.length fs p
        rcases hp with hp | hp <;> rw [hp] <;> rfl
      · have hpn : p ≠ [] := fun hc => hp (Or.inl hc)
        rcases hl : p.length with _ | k
        · exact absurd (List.length_eq_zero.mp hl) hpn
        · show mkDirChainFuel (m + 1) fs p = mkDirChainFuel p.length fs p
          rw [hl]
          simp only [mkDirChainFuel, hp, if_false]
          have hlt := parentPath_length_lt p hpn
          rw [ih m (Nat.lt_succ_self m) fs (parentPath p) (by omega),
            ih k (by omega) fs (parentPath p) (by omega)]

/-- The one-step unfolding of `mkDirChain`. -/
theorem mkDirChain_eq (fs : Fs) (p : PathStr) :
    mkDirChain fs p =
      if p = [] ∨ p = ['/'] then some fs
      else
        match mkDirChain fs (parentPath p) with
        | none => none
        | some fs2 =>
          match fsLookup fs2 p with
          | some .dir => some fs2
          | some (.file _) => none
          | none => some (fsInsert fs2 p .dir) := by
  by_cases hp : p = [] ∨ p = ['/']
  · show mkDirChainFuel p.length fs p = _
    rcases hp with hp | hp <;> rw [hp] <;> simp [mkDirChainFuel]
  · have hpn : p ≠ [] := fun hc => hp (Or.inl hc)
    rcases hl : p.length with _ | k
    · exact absurd (List.length_eq_zero.mp hl) hpn
    · show mkDirChainFuel p.length fs p = _
      rw [hl]
      simp only [mkDirChainFuel, hp, if_false]
      have hlt := parentPath_length_lt p hpn
      rw [mkDirChainFuel_adequate k fs (parentPath p) (by omega)]

/-- Lines 108–128 of `MoveStorageJob.cpp`: the target's parent must be a
directory, creating it (recursively) when missing; `none` covers both
error returns and the caught `filesystem_error`s. -/
def ensureDirExists (fs : Fs) (d : PathStr) : Option Fs :=
  match fsLookup fs d with
  | some .dir => some fs
  | some (.file _) => none
  | none => mkDirChain fs d

/-- The host database's per-attachment custom-data blobs
(`attachment uuid → serialized location`). -/
abbrev Meta := List (Str × Str)

/-- The mutable state a migration touches: the filesystem and the host's
persisted location blobs. -/
structure MoveState where
  fs : Fs
  meta : Meta
deriving DecidableEq

/-- The tail of `MoveStorageJob::MoveAttachment` after the copy step:
persist the serialized target location (`updateOk` is the host's
verdict); on failure delete the target file and prune its empty parents;
on success delete the source file and prune its empty parents. -/
def moveFinish (cfg : Config) (updateOk : Bool) (meta : Meta) (cd newCd : CustomData)
    (fs : Fs) (currentPath newPath : PathStr) : Except Unit (MoveState × Bool) :=
  if !updateOk then
    let fs2 := fsErase fs newPath
    let fs3 := pruneLoop cfg fs2 (parentPath newPath)
    .ok ({ fs := fs3, meta := meta }, false)
  else
    let meta2 := setAssoc meta cd.uuid (CustomData.ToString cfg newCd)
    let fs2 := fsErase fs currentPath
    let fs3 := pruneLoop cfg fs2 (parentPath currentPath)
    .ok ({ fs := fs3, meta := meta2 }, true)

/-- Model of `MoveStorageJob::MoveAttachment`.  The `.error` results model
exceptions that escape the function (they are raised outside its `try`
block, or inside the `catch` handler). -/
def MoveAttachment (cfg : Config) (updateOk : Bool) (st : MoveState)
    (cd : CustomData) (targetStorageId : Str) : Except Unit (MoveState × Bool) :=
  if !cd.isOwner then .ok (st, false)
  else if !cd.IsRelativePath then .ok (st, false)
  else do
    let newCd := CustomData.CreateForMoveStorage cd targetStorageId
    let currentPath ← CustomData.GetAbsolutePath cfg cd
    let newPath ← CustomData.GetAbsolutePath cfg newCd
    if fsLookup st.fs currentPath = none then .ok (st, false)
    else
      match ensureDirExists st.fs (parentPath newPath) with
      | none => .ok (st, false)
      | some fs1 =>
        match fsLookup fs1 currentPath with
        | some (.file srcContent) =>
          match fsLookup fs1 newPath with
          | none =>
            -- `copy_file` succeeds
            moveFinish cfg updateOk st.meta cd newCd
              (fsInsert fs1 newPath (.file srcContent)) currentPath newPath
          | some (.file dstContent) =>
            -- `copy_file` raises `file_exists`; `CompareFilesMD5` compares
            -- the contents (modelled byte-for-byte, as the spec allows)
            if srcContent = dstContent then
              moveFinish cfg updateOk st.meta cd newCd fs1 currentPath newPath
            else .ok ({ fs := fs1, meta := st.meta }, false)
          | some .dir =>
            -- `CompareFilesMD5` on a directory throws out of the handler
            .error ()
        | some .dir =>
          -- the source is not a regular file: `copy_file` fails (caught)
          .ok ({ fs := fs1, meta := st.meta }, false)
        | none => .ok ({ fs := fs1, meta := st.meta }, false)

/-- Model of `GetAttachmentCustomData` (`Helpers.cpp`): fetch the persisted blob
and deserialize it. -/
def GetAttachmentCustomData (meta : Meta) (attachmentUuid : Str) :
    Except Unit CustomData :=
  match getAssoc meta attachmentUuid with
  | some blob => CustomData.FromString attachmentUuid blob
  | none => .error ()

/-- Model of `MoveStorageJob::MoveInstance` over the instance's attachment uuids
(the host's attachment enumeration, an external REST call, is the
caller-supplied list).  Note `success &= MoveAttachment(...)`: a failed
attachment does not stop the iteration. -/
def MoveInstance (cfg : Config) (updateOk : Bool) (st : MoveState)
    (attachmentUuids : List Str) (targetStorageId : Str) :
    Except Unit (MoveState × Bool) :=
  match attachmentUuids with
  | [] => .ok (st, true)
  | u :: rest => do
    let cd ← GetAttachmentCustomData st.meta u
    let r1 ← MoveAttachment cfg updateOk st cd targetStorageId
    let r2 ← MoveInstance cfg updateOk r1.1 rest targetStorageId
    .ok (r2.1, r1.2 && r2.2)

/-- Model of `OrthancPluginJobStepStatus`. -/
inductive StepStatus
  | Continue
  | Success
  | Failure
deriving DecidableEq

/-- The migration job's own state (`MoveStorageJob.h`). -/
structure JobState where
  targetStorageId : Str
  instances : List Str
  processedInstancesCount : Nat
deriving DecidableEq

/-- The outcome of one `Step()` call: the job state, the touched
filesystem/metadata, the returned status, and the fraction
`processed/total` passed to `UpdateProgress` (if called), kept as the
exact pair of numerator and denominator. -/
structure StepOut where
  job : JobState
  st : MoveState
  status : StepStatus
  progress : Option (Nat × Nat)
deriving DecidableEq

/-- Model of `MoveStorageJob::Step`: while unprocessed instances remain, move the
next one; on success advance the counter, report `processed/total` and
return `Continue`; on failure return `Failure` unchanged.  With no
instance left return `Success`. -/
def MoveStorageJobStep (cfg : Config) (updateOk : Bool)
    (attachmentsOf : Str → List Str) (job : JobState) (st : MoveState) :
    Except Unit StepOut :=
  if h : job.processedInstancesCount < job.instances.length then do
    let inst := job.instances.get ⟨job.processedInstancesCount, h⟩
    let r ← MoveInstance cfg updateOk st (attachmentsOf inst) job.targetStorageId
    if r.2 then
      let c2 := job.processedInstancesCount + 1
      .ok { job := { job with processedInstancesCount := c2 }, st := r.1,
            status := .Continue,
            progress := some (c2, job.instances.length) }
    else
      .ok { job := job, st := r.1, status := .Failure, progress := none }
  else
    .ok { job := job, st := st, status := .Success, progress := none }

/-- The `StorageRemove` callback (`Plugin.cpp`): deserialize, resolve
the absolute path (an exception from either escapes the `noexcept`
callback: the `.error` case), skip deletion entirely for a non-owned
(adopted) location, otherwise schedule the deletion when the delayed
deleter is active, or delete and prune inside a `try/catch` that ignores
every filesystem error.  Every non-escaping outcome returns the success
code; the returned list holds the paths handed to the delayed deleter. -/
def StorageRemove (cfg : Config) (hasDelayedDeleter : Bool) (fs : Fs)
    (uuid : Str) (blob : Str) : Except Unit (Fs × List PathStr) := do
  let cd ← CustomData.FromString uuid blob
  let path ← CustomData.GetAbsolutePath cfg cd
  if !cd.isOwner then
    .ok (fs, [])
  else if hasDelayedDeleter then
    .ok (fs, [path])
  else
    match fsRemoveOp fs path with
    | .ok r => .ok (pruneLoop cfg r.1 (parentPath path), [])
    | .error _ => .ok (fs, [])

/-!
## Basic lemmas about the filesystem map and the pruning loop
-/

theorem fsLookup_erase (fs : Fs) (p q : PathStr) :
    fsLookup (fsErase fs p) q = if q = p then none else fsLookup fs q := by
  induction fs with
  | nil => simp [fsErase, fsLookup]
  | cons e rest ih =>
    by_cases hqp : q = p
    · subst hqp
      by_cases hep : e.1 = q
      · simp [fsErase, hep, ih]
      · simp [fsErase, hep, fsLookup, ih]
    · have hpq : ¬ p = q := fun hc => hqp hc.symm
      by_cases hep : e.1 = p
      · have heq : ¬ e.1 = q := by rw [hep]; exact hpq
        simp [fsErase, hep, ih, hqp, fsLookup, heq, hpq]
      · by_cases heq : e.1 = q
        · simp [fsErase, hep, fsLookup, heq, hqp]
        · simp [fsErase, hep, fsLookup, heq, ih, hqp]

theorem fsLookup_insert (fs : Fs) (p : PathStr) (e : FsEntry) (q : PathStr) :
    fsLookup (fsInsert fs p e) q = if q = p then some e else fsLookup fs q := by
  by_cases hqp : q = p
  · simp [fsInsert, fsLookup, hqp]
  · have : p ≠ q := fun hc => hqp hc.symm
    simp [fsInsert, fsLookup, this, hqp, fsLookup_erase]

theorem fsErase_idem (fs : Fs) (p : PathStr) :
    fsErase (fsErase fs p) p = fsErase fs p := by
  induction fs with
  | nil => simp [fsErase]
  | cons e rest ih =>
    by_cases hep : e.1 = p <;> simp [fsErase, hep, ih]

theorem fsErase_insert (fs : Fs) (p : PathStr) (e : FsEntry) :
    fsErase (fsInsert fs p e) p = fsErase fs p := by
  simp [fsInsert, fsErase, fsErase_idem]

theorem hasChild_of_entry (fs : Fs) (c p : PathStr) (hc : fsLookup fs c ≠ none)
    (hne : c ≠ p) (hpar : parentPath c = p) : hasChild fs p = true := by
  induction fs with
  | nil => simp [fsLookup] at hc
  | cons e rest ih =>
    by_cases hec : e.1 = c
    · simp only [hasChild, Bool.or_eq_true]
      exact Or.inl (by simp [hec, hne, hpar])
    · simp only [fsLookup, hec, if_false] at hc
      simp only [hasChild, Bool.or_eq_true]
      exact Or.inr (ih hc)

theorem fsRemoveOp_shape (fs : Fs) (p : PathStr) (r : Fs × Bool)
    (h : fsRemoveOp fs p = .ok r) : r.1 = fs ∨ r.1 = fsErase fs p := by
  unfold fsRemoveOp at h
  rcases hl : fsLookup fs p with _ | ⟨⟩ | ⟨⟩ <;> rw [hl] at h
  · exact Or.inl (by cases h; rfl)
  · exact Or.inr (by cases h; rfl)
  · by_cases hcch : hasChild fs p
    · simp [hcch] at h
    · simp only [hcch, Bool.false_eq_true, if_false, Except.ok.injEq] at h
      exact Or.inr (by cases h; rfl)

theorem fsRemoveOp_preserves (fs : Fs) (p : PathStr) (r : Fs × Bool)
    (h : fsRemoveOp fs p = .ok r) (q : PathStr) (hq : q ≠ p) :
    fsLookup r.1 q = fsLookup fs q := by
  rcases fsRemoveOp_shape fs p r h with h1 | h1
  · rw [h1]
  · rw [h1, fsLookup_erase, if_neg hq]

theorem parentPath_nil : parentPath [] = [] := by decide

theorem ne_nil_of_parentPath_ne_nil (c : PathStr) (h : parentPath c ≠ []) : c ≠ [] := by
  intro hc
  rw [hc, parentPath_nil] at h
  exact h rfl

/-- Every nonempty member `a` of an ancestor chain has an immediate
child on the chain (or the path itself). -/
theorem ancestorChain_child (p a : PathStr)
    (ha : a ∈ ancestorChain p) (hne : a ≠ []) :
    ∃ c, parentPath c = a ∧ (c = p ∨ strictAncestor c p) := by
  by_cases hp : p = []
  · rw [hp] at ha
    simp [ancestorChain, ancestorChainFuel] at ha
  · rw [ancestorChain_cons p hp] at ha
    rcases List.mem_cons.mp ha with h1 | h2
    · exact ⟨p, by rw [h1], Or.inl rfl⟩
    · obtain ⟨c, hc1, hc2⟩ := ancestorChain_child (parentPath p) a h2 hne
      have hcne : c ≠ [] := ne_nil_of_parentPath_ne_nil c (by rw [hc1]; exact hne)
      refine ⟨c, hc1, Or.inr ?_⟩
      rcases hc2 with h3 | h3
      · refine ⟨hcne, ?_⟩
        rw [ancestorChain_cons p hp, h3]
        exact List.mem_cons_self _ _
      · refine ⟨hcne, ?_⟩
        rw [ancestorChain_cons p hp]
        exact List.mem_cons_of_mem _ h3.2
termination_by p.length
decreasing_by exact parentPath_length_lt p hp

theorem isARootPath_iff (cfg : Config) (p : PathStr) :
    IsARootPath cfg p = true ↔ p ∈ registeredRoots cfg := by
  simp only [IsARootPath, registeredRoots, Bool.or_eq_true, decide_eq_true_eq,
    List.any_eq_true, List.mem_cons, List.mem_map]

/-- Holds when `q` equals, or lies strictly above, some registered root. -/
def rootOrAbove (cfg : Config) (q : PathStr) : Prop :=
  ∃ r, r ∈ registeredRoots cfg ∧ (q = r ∨ strictAncestor q r)

theorem pruneLoop_none (cfg : Config) (fs : Fs) (parent q : PathStr)
    (h : fsLookup fs q = none) :
    fsLookup (pruneLoop cfg fs parent) q = none := by
  rw [pruneLoop_eq]
  by_cases hpe : parent = []
  · rwa [if_pos hpe]
  · rw [if_neg hpe]
    by_cases hr : IsARootPath cfg parent
    · rwa [if_pos hr]
    · rw [if_neg hr]
      rcases hrm : fsRemoveOp fs parent with _ | r
      · exact h
      · have h2 : fsLookup r.1 q = none := by
          rcases fsRemoveOp_shape fs parent r hrm with h1 | h1
          · rwa [h1]
          · rw [h1, fsLookup_erase]
            by_cases hq : q = parent <;> simp [hq, h]
        exact pruneLoop_none cfg r.1 (parentPath parent) q h2
termination_by parent.length
decreasing_by exact parentPath_length_lt parent hpe

theorem pruneLoop_changes (cfg : Config) (fs : Fs) (parent q : PathStr)
    (h : fsLookup (pruneLoop cfg fs parent) q ≠ fsLookup fs q) :
    q = parent ∨ q ∈ ancestorChain parent := by
  rw [pruneLoop_eq] at h
  by_cases hpe : parent = []
  · rw [if_pos hpe] at h; exact absurd rfl h
  · rw [if_neg hpe] at h
    by_cases hr : IsARootPath cfg parent
    · rw [if_pos hr] at h; exact absurd rfl h
    · rw [if_neg hr] at h
      rcases hrm : fsRemoveOp fs parent with _ | r <;> rw [hrm] at h
      · exact absurd rfl h
      · by_cases hq : q = parent
        · exact Or.inl hq
        · have hpres : fsLookup r.1 q = fsLookup fs q :=
            fsRemoveOp_preserves fs parent r hrm q hq
          have h2 : fsLookup (pruneLoop cfg r.1 (parentPath parent)) q ≠ fsLookup r.1 q := by
            rw [hpres]; exact h
          rcases pruneLoop_changes cfg r.1 (parentPath parent) q h2 with h3 | h3
          · exact Or.inr (by rw [ancestorChain_cons parent hpe, h3]; exact List.mem_cons_self _ _)
          · exact Or.inr (by rw [ancestorChain_cons parent hpe]; exact List.mem_cons_of_mem _ h3)
termination_by parent.length
decreasing_by exact parentPath_length_lt parent hpe

/-- Under a well-formed filesystem (every registered root present, every
strict ancestor of a root a directory), the pruning loop never touches a
path that equals, or lies above, a registered root. -/
theorem pruneLoop_rootOrAbove (cfg : Config) (fs : Fs) (parent : PathStr)
    (hroot : ∀ r ∈ registeredRoots cfg, fsLookup fs r ≠ none)
    (hanc : ∀ r ∈ registeredRoots cfg, ∀ a, strictAncestor a r → fsLookup fs a = some .dir)
    (q : PathStr) (hq : rootOrAbove cfg q) :
    fsLookup (pruneLoop cfg fs parent) q = fsLookup fs q := by
  rw [pruneLoop_eq]
  by_cases hpe : parent = []
  · rw [if_pos hpe]
  · rw [if_neg hpe]
    by_cases hr : IsARootPath cfg parent
    · rw [if_pos hr]
    · rw [if_neg hr]
      by_cases hpa : rootOrAbove cfg parent
      · -- `parent` is strictly above a root: it is a non-empty directory with
        -- a present child on the chain to that root, so `remove` raises and
        -- the loop stops without modifying anything.
        obtain ⟨rr, hrmem, hpr⟩ := hpa
        rcases hpr with h1 | h1
        · exact absurd ((isARootPath_iff cfg parent).mpr (h1 ▸ hrmem)) hr
        · have hdir : fsLookup fs parent = some .dir := hanc rr hrmem parent h1
          obtain ⟨c, hc1, hc2⟩ := ancestorChain_child rr parent h1.2 h1.1
          have hcl : fsLookup fs c ≠ none := by
            rcases hc2 with h3 | h3
            · rw [h3]; exact hroot rr hrmem
            · rw [hanc rr hrmem c h3]; simp
          have hcne : c ≠ parent := by
            intro hc
            have hcnil : c ≠ [] := ne_nil_of_parentPath_ne_nil c (by rw [hc1]; exact hpe)
            have := parentPath_length_lt c hcnil
            rw [hc1, hc] at this
            exact Nat.lt_irrefl _ this
          have hch : hasChild fs parent = true := hasChild_of_entry fs c parent hcl hcne hc1
          rw [show fsRemoveOp fs parent = .error () by unfold fsRemoveOp; rw [hdir]; simp [hch]]
      · -- `parent` is unrelated to every root: removing it cannot affect `q`.
        rcases hrm : fsRemoveOp fs parent with _ | r
        · rfl
        · have hqne : q ≠ parent := fun hc => hpa (hc ▸ hq)
          have hpres : fsLookup r.1 q = fsLookup fs q :=
            fsRemoveOp_preserves fs parent r hrm q hqne
          have hroot2 : ∀ rr ∈ registeredRoots cfg, fsLookup r.1 rr ≠ none := by
            intro rr hmem
            have : rr ≠ parent := fun hc => hpa (hc ▸ ⟨rr, hmem, Or.inl rfl⟩)
            rw [fsRemoveOp_preserves fs parent r hrm rr this]
            exact hroot rr hmem
          have hanc2 : ∀ rr ∈ registeredRoots cfg, ∀ a, strictAncestor a rr →
              fsLookup r.1 a = some .dir := by
            intro rr hmem a hsa
            have : a ≠ parent := fun hc => hpa (hc ▸ ⟨rr, hmem, Or.inr hsa⟩)
            rw [fsRemoveOp_preserves fs parent r hrm a this]
            exact hanc rr hmem a hsa
          rw [pruneLoop_rootOrAbove cfg r.1 (parentPath parent) hroot2 hanc2 q hq, hpres]
termination_by parent.length
decreasing_by exact parentPath_length_lt parent hpe

/-- When the starting parent has no remaining child (and is not a
root), the first iteration of the loop removes it — and nothing is ever
re-created. -/
theorem pruneLoop_first_removes (cfg : Config) (fs : Fs) (par : PathStr)
    (hne : par ≠ []) (hroot : IsARootPath cfg par = false)
    (hnc : hasChild fs par = false) :
    fsLookup (pruneLoop cfg fs par) par = none := by
  rw [pruneLoop_eq, if_neg hne, if_neg (by simp [hroot])]
  rcases hl : fsLookup fs par with _ | ⟨⟩ | ⟨⟩
  · rw [show fsRemoveOp fs par = .ok (fs, false) by unfold fsRemoveOp; rw [hl]]
    exact pruneLoop_none cfg fs (parentPath par) par hl
  · rw [show fsRemoveOp fs par = .ok (fsErase fs par, true) by unfold fsRemoveOp; rw [hl]]
    exact pruneLoop_none cfg _ (parentPath par) par (by rw [fsLookup_erase]; simp)
  · rw [show fsRemoveOp fs par = .ok (fsErase fs par, true) by
      unfold fsRemoveOp; rw [hl]; simp [hnc]]
    exact pruneLoop_none cfg _ (parentPath par) par (by rw [fsLookup_erase]; simp)

/-- The modelled `create_directories` only adds directory entries at previously
missing keys: existing entries are untouched, and any key whose entry
changed now holds a directory. -/
theorem mkDirChain_spec (p : PathStr) (fs fs2 : Fs)
    (h : mkDirChain fs p = some fs2) (q : PathStr) :
    (fsLookup fs q ≠ none → fsLookup fs2 q = fsLookup fs q) ∧
    (fsLookup fs2 q ≠ fsLookup fs q → fsLookup fs2 q = some FsEntry.dir) := by
  rw [mkDirChain_eq] at h
  by_cases hp : p = [] ∨ p = ['/']
  · rw [if_pos hp] at h
    cases h
    exact ⟨fun _ => rfl, fun hc => absurd rfl hc⟩
  · rw [if_neg hp] at h
    have hpn : p ≠ [] := fun hc => hp (Or.inl hc)
    rcases hm : mkDirChain fs (parentPath p) with _ | fsA <;> rw [hm] at h
    · cases h
    · replace h : (match fsLookup fsA p with
        | some FsEntry.dir => some fsA
        | some (FsEntry.file _) => none
        | none => some (fsInsert fsA p FsEntry.dir)) = some fs2 := h
      have ih := mkDirChain_spec (parentPath p) fs fsA hm q
      rcases hl : fsLookup fsA p with _ | ⟨⟩ | ⟨⟩ <;> rw [hl] at h
      · -- the component is missing: it is inserted as a directory
        cases h
        constructor
        · intro hq
          rw [fsLookup_insert]
          by_cases hqp : q = p
          · exfalso
            rw [hqp] at hq
            have := ih.1
            rw [hqp] at this
            rcases hfsp : fsLookup fs p with _ | e
            · exact hq hfsp
            · rw [this (by rw [hfsp]; simp), hfsp] at hl
              cases hl
          · rw [if_neg hqp]
            exact ih.1 hq
        · intro hdiff
          rw [fsLookup_insert]
          by_cases hqp : q = p
          · rw [if_pos hqp]
          · rw [if_neg hqp]
            rw [fsLookup_insert, if_neg hqp] at hdiff
            by_cases hsame : fsLookup fsA q = fsLookup fs q
            · exact absurd hsame hdiff
            · exact ih.2 hsame
      · cases h
      · cases h
        exact ih
termination_by p.length
decreasing_by exact parentPath_length_lt p hpn

/-- Lines 108–128 of `MoveAttachment`: same preservation facts for the
parent-directory check/creation. -/
theorem ensureDirExists_spec (fs : Fs) (d : PathStr) (fs1 : Fs)
    (h : ensureDirExists fs d = some fs1) (q : PathStr) :
    (fsLookup fs q ≠ none → fsLookup fs1 q = fsLookup fs q) ∧
    (fsLookup fs1 q ≠ fsLookup fs q → fsLookup fs1 q = some FsEntry.dir) := by
  unfold ensureDirExists at h
  rcases hl : fsLookup fs d with _ | ⟨⟩ | ⟨⟩ <;> rw [hl] at h
  · exact mkDirChain_spec d fs fs1 h q
  · cases h
  · cases h
    exact ⟨fun _ => rfl, fun hc => absurd rfl hc⟩

instance (cfg : Config) (q : PathStr) : Decidable (rootOrAbove cfg q) := by
  unfold rootOrAbove; infer_instance

theorem exceptBind_ok {ε α β : Type} (a : α) (f : α → Except ε β) :
    (Except.ok (ε := ε) a >>= f) = f a := rfl

/-!
## Claim theorems
-/

/-- C9: the directory pruning performed after a delete or a migration
(`RemoveEmptyParentDirectories`) never removes — nor otherwise alters —
an entry that equals, or is an ancestor of, any registered storage root,
on any filesystem in which every registered root exists and every strict
ancestor of a root is a (necessarily non-empty) directory. -/
theorem C9_pruning_never_touches_roots (cfg : Config) (fs : Fs) (path q : PathStr)
    (hroot : ∀ r ∈ registeredRoots cfg, fsLookup fs r ≠ none)
    (hanc : ∀ r ∈ registeredRoots cfg, ∀ a, strictAncestor a r →
      fsLookup fs a = some FsEntry.dir)
    (hq : rootOrAbove cfg q) :
    fsLookup (RemoveEmptyParentDirectories cfg fs path) q = fsLookup fs q :=
  pruneLoop_rootOrAbove cfg fs (parentPath path) hroot hanc q hq

def cfg9 : Config :=
  { orthancCoreRootPath := "/r".toList,
    storagesRootPaths := [("s1".toList, "/r1".toList)],
    currentWriteStorageId := "s1".toList, maxPathLength := 256,
    otherAttachmentsPrefixPath := [], namingScheme := "{UUID}".toList }

def fs9 : Fs :=
  [(['/'], .dir), ("/r".toList, .dir), ("/r1".toList, .dir),
   ("/x".toList, .dir), ("/x/y".toList, .dir), ("/x/y/z".toList, .file "d".toList)]

theorem C9_witness :
    rootOrAbove cfg9 ['/'] ∧
    fsLookup (RemoveEmptyParentDirectories cfg9 fs9 "/x/y/z".toList) ['/'] =
      fsLookup fs9 ['/'] := by
  refine ⟨by decide, C9_pruning_never_touches_roots cfg9 fs9 "/x/y/z".toList ['/']
    (by decide) ?_ (by decide)⟩
  intro r hr a ha
  have hch : ancestorChain r = [['/'], []] :=
    (show ∀ r ∈ registeredRoots cfg9, ancestorChain r = [['/'], []] by decide) r hr
  rcases ha with ⟨hne, hmem⟩
  rw [hch] at hmem
  rcases List.mem_cons.mp hmem with h1 | h2
  · rw [h1]; decide
  · rw [List.mem_singleton] at h2
    exact absurd h2 hne

/-- The acceptance condition exactly as claim C7 words it: `{UUID}`, or —
only when the host overwrite mode is disabled — all four DICOM
natural-key tokens (or their hashed-id equivalents). -/
def namingSchemeAcceptedPerClaim (scheme : Str) (isOverwriteInstances : Bool) : Bool :=
  containsSub "{UUID}".toList scheme ||
    (!isOverwriteInstances &&
      ((containsSub "{PatientID}".toList scheme
          || containsSub "{OrthancPatientID}".toList scheme) &&
       (containsSub "{StudyInstanceUID}".toList scheme
          || containsSub "{OrthancStudyID}".toList scheme) &&
       (containsSub "{SeriesInstanceUID}".toList scheme
          || containsSub "{OrthancSeriesID}".toList scheme) &&
       (containsSub "{SOPInstanceUID}".toList scheme
          || containsSub "{OrthancInstanceID}".toList scheme)))

def scheme7 : Str :=
  "{PatientID}/{StudyInstanceUID}/{SeriesInstanceUID}/{SOPInstanceUID}".toList

/-- C7 fails on the code: with overwrite DISABLED, the four-identifier
scheme is accepted per the claim but rejected by `SetNamingScheme`
(which accepts it only when overwrite is ENABLED). -/
theorem C7_counterexample :
    namingSchemeAcceptedPerClaim scheme7 false = true ∧
    SetNamingScheme scheme7 false = .error () ∧
    SetNamingScheme scheme7 true = .ok () := by decide

/-- C7 (amended): a non-default naming scheme is accepted iff it contains
`{UUID}`, or — only when the host overwrite mode is ENABLED — the
`{OrthancInstanceID}` token or all four DICOM natural-key substrings
(`PatientID`, `StudyInstanceUID`, `SeriesInstanceUID`, `SOPInstanceUID`,
which also match their hashed `{Orthanc...}` equivalents); rejection is
the configuration-time throw. -/
theorem C7_naming_scheme_validation (scheme : Str) (overwrite : Bool)
    (hnd : scheme ≠ "OrthancDefault".toList) :
    SetNamingScheme scheme overwrite = .ok () ↔
      (containsSub "{UUID}".toList scheme = true ∨
        (overwrite = true ∧
          (containsSub "{OrthancInstanceID}".toList scheme = true ∨
            (containsSub "PatientID".toList scheme = true ∧
             containsSub "StudyInstanceUID".toList scheme = true ∧
             containsSub "SeriesInstanceUID".toList scheme = true ∧
             containsSub "SOPInstanceUID".toList scheme = true)))) := by
  unfold SetNamingScheme
  rw [if_pos hnd]
  cases overwrite <;>
    cases h1 : containsSub "{UUID}".toList scheme <;>
    cases h2 : containsSub "{OrthancInstanceID}".toList scheme <;>
    cases h3 : containsSub "PatientID".toList scheme <;>
    cases h4 : containsSub "StudyInstanceUID".toList scheme <;>
    cases h5 : containsSub "SeriesInstanceUID".toList scheme <;>
    cases h6 : containsSub "SOPInstanceUID".toList scheme <;>
    simp [h1, h2, h3, h4, h5, h6]

theorem C7_witness :
    "{UUID}/x".toList ≠ "OrthancDefault".toList ∧
    (SetNamingScheme "{UUID}/x".toList false = .ok () ↔
      (containsSub "{UUID}".toList "{UUID}/x".toList = true ∨
        (false = true ∧
          (containsSub "{OrthancInstanceID}".toList "{UUID}/x".toList = true ∨
            (containsSub "PatientID".toList "{UUID}/x".toList = true ∧
             containsSub "StudyInstanceUID".toList "{UUID}/x".toList = true ∧
             containsSub "SeriesInstanceUID".toList "{UUID}/x".toList = true ∧
             containsSub "SOPInstanceUID".toList "{UUID}/x".toList = true))))) :=
  ⟨by decide, C7_naming_scheme_validation "{UUID}/x".toList false (by decide)⟩

def cfg5 : Config :=
  { orthancCoreRootPath := "/r".toList, storagesRootPaths := [],
    currentWriteStorageId := [], maxPathLength := 256,
    otherAttachmentsPrefixPath := [], namingScheme := "OrthancDefault".toList }

def cd5 : CustomData := CustomData.CreateForAdoption "/ext/f.dcm".toList true

/-- C5 fails on the code: a record adopted WITH ownership stores an
absolute path yet is owned, and `GetAbsolutePath` — which branches on
ownership, not on absoluteness — resolves the core root and appends the
absolute path instead of returning it unchanged. -/
theorem C5_counterexample :
    isAbsolutePath cd5.path = true ∧
    CustomData.GetAbsolutePath cfg5 cd5 ≠ .ok cd5.path ∧
    CustomData.GetAbsolutePath cfg5 cd5 = .ok "/r/ext/f.dcm".toList := by decide

/-- C5 (amended): `GetAbsolutePath` returns the stored path unchanged
exactly when the record is NOT owned; an owned record resolves its
backend id (the core root when the id is empty) through the registry and
appends the stored path — even when that path is absolute — or the
legacy layout derived from the identifier when the path is empty. -/
theorem C5_get_absolute_path (cfg : Config) (cd : CustomData) :
    (cd.isOwner = false → CustomData.GetAbsolutePath cfg cd = .ok cd.path) ∧
    (∀ root, cd.isOwner = true →
      (if cd.storageId ≠ [] then GetStorageRootPath cfg cd.storageId
       else GetOrthancCoreRootPath cfg) = .ok root →
      (cd.path ≠ [] →
        CustomData.GetAbsolutePath cfg cd = .ok (appendPath root cd.path)) ∧
      (cd.path = [] → ∀ lp, GetLegacyRelativePath cd.uuid = .ok lp →
        CustomData.GetAbsolutePath cfg cd = .ok (appendPath root lp))) := by
  constructor
  · intro h
    simp [CustomData.GetAbsolutePath, h]
  · intro root hown hres
    constructor
    · intro hpne
      by_cases hsid : cd.storageId = []
      · rw [if_neg (by simp [hsid])] at hres
        simp [CustomData.GetAbsolutePath, hown, hsid, hres, hpne, exceptBind_ok]
      · rw [if_pos hsid] at hres
        simp [CustomData.GetAbsolutePath, hown, hsid, hres, hpne, exceptBind_ok]
    · intro hpe lp hlp
      by_cases hsid : cd.storageId = []
      · rw [if_neg (by simp [hsid])] at hres
        simp [CustomData.GetAbsolutePath, hown, hsid, hres, hpe, hlp, exceptBind_ok]
      · rw [if_pos hsid] at hres
        simp [CustomData.GetAbsolutePath, hown, hsid, hres, hpe, hlp, exceptBind_ok]

def cd5b : CustomData := CustomData.CreateForAdoption "/ext/g.dcm".toList false

def cd5c : CustomData :=
  { path := "a/b".toList, isOwner := true, storageId := "s1".toList, uuid := [] }

theorem C5_witness :
    CustomData.GetAbsolutePath cfg9 cd5b = .ok cd5b.path ∧
    CustomData.GetAbsolutePath cfg9 cd5c = .ok (appendPath "/r1".toList "a/b".toList) :=
  ⟨(C5_get_absolute_path cfg9 cd5b).1 rfl,
   ((C5_get_absolute_path cfg9 cd5c).2 "/r1".toList rfl (by decide)).1 (by decide)⟩

def cfg4 : Config :=
  { orthancCoreRootPath := "/var/lib/orthanc/db".toList, storagesRootPaths := [],
    currentWriteStorageId := [], maxPathLength := 256,
    otherAttachmentsPrefixPath := [], namingScheme := "OrthancDefault".toList }

/-- C4: under the default naming scheme with a single storage,
`ToString` of a record adopted WITHOUT ownership is the empty blob (the
early return never consults adoption — the declared `hasBeenAdopted_`
field is never assigned), and the empty blob deserializes to an OWNED
default record: the adoption information is lost. -/
theorem C4_adopted_record_serializes_empty :
    CustomData.ToString cfg4 (CustomData.CreateForAdoption "/external/f.dcm".toList false)
        = [] ∧
    (CustomData.CreateForAdoption "/external/f.dcm".toList false).isOwner = false ∧
    CustomData.FromString "u1".toList [] =
      .ok { uuid := "u1".toList, isOwner := true, path := [], storageId := [] } := by
  decide

def uuid6 : Str := "00f7fd8b-47bd-8c3a-ff91-7804d180cdbc".toList

def legacy6 : Str := "00/f7/00f7fd8b-47bd-8c3a-ff91-7804d180cdbc".toList

def cfg6 : Config :=
  { orthancCoreRootPath := "/r".toList, storagesRootPaths := [],
    currentWriteStorageId := [], maxPathLength := 5,
    otherAttachmentsPrefixPath := [], namingScheme := "{UUID}".toList }

/-- C6 fails on the code: after the over-length substitution the legacy
absolute path is NOT re-checked, so the path actually used for I/O can
still exceed the configured maximum (here 5). -/
theorem C6_counterexample :
    CustomData.CreateForWriting cfg6 uuid6 "abcdef".toList =
      .ok { isOwner := true, uuid := uuid6, storageId := [], path := legacy6 } ∧
    (appendPath "/r".toList "abcdef".toList).length > cfg6.maxPathLength ∧
    (appendPath "/r".toList legacy6).length > cfg6.maxPathLength := by decide

/-- C6 (amended): `CreateForWriting` keeps the caller's relative path
exactly when the computed absolute path contains neither `".."` nor
`"="` and does not exceed the maximum length; otherwise it substitutes
the legacy layout (under the other-attachments prefix when one is
configured) — without re-checking the substituted path. -/
theorem C6_create_for_writing (cfg : Config) (uuid : Str) (rel : PathStr)
    (root : PathStr) (hroot : GetCurrentWriteRootPath cfg = .ok root)
    (lp : PathStr) (hlp : GetLegacyRelativePath uuid = .ok lp) :
    (¬ (containsSub "..".toList (appendPath root rel) = true ∨
        containsSub "=".toList (appendPath root rel) = true ∨
        (appendPath root rel).length > cfg.maxPathLength) →
      CustomData.CreateForWriting cfg uuid rel =
        .ok { isOwner := true, uuid := uuid, storageId := cfg.currentWriteStorageId,
              path := rel }) ∧
    ((containsSub "..".toList (appendPath root rel) = true ∨
        containsSub "=".toList (appendPath root rel) = true ∨
        (appendPath root rel).length > cfg.maxPathLength) →
      CustomData.CreateForWriting cfg uuid rel =
        .ok { isOwner := true, uuid := uuid, storageId := cfg.currentWriteStorageId,
              path := if cfg.otherAttachmentsPrefixPath ≠ [] then
                        appendPath cfg.otherAttachmentsPrefixPath lp
                      else lp }) := by
  constructor
  · intro hclean
    have h1 : containsSub "..".toList (appendPath root rel) = false := by
      cases hc : containsSub "..".toList (appendPath root rel)
      · rfl
      · exact absurd (Or.inl hc) hclean
    have h2 : containsSub "=".toList (appendPath root rel) = false := by
      cases hc : containsSub "=".toList (appendPath root rel)
      · rfl
      · exact absurd (Or.inr (Or.inl hc)) hclean
    have h3 : ¬ (appendPath root rel).length > cfg.maxPathLength :=
      fun hc => hclean (Or.inr (Or.inr hc))
    simp only [CustomData.CreateForWriting, hroot, exceptBind_ok, h1, h2, h3,
      Bool.or_self, Bool.false_eq_true, if_false, ite_false]
  · intro hbad
    by_cases hcc : (containsSub "..".toList (appendPath root rel)
        || containsSub "=".toList (appendPath root rel)) = true
    · simp only [CustomData.CreateForWriting, hroot, exceptBind_ok, hcc, hlp,
        if_true, ite_true]
    · have hccf : (containsSub "..".toList (appendPath root rel)
          || containsSub "=".toList (appendPath root rel)) = false := by
        cases hc : (containsSub "..".toList (appendPath root rel)
            || containsSub "=".toList (appendPath root rel))
        · rfl
        · exact absurd hc hcc
      have h3 : (appendPath root rel).length > cfg.maxPathLength := by
        rcases hbad with h1 | h2 | h3
        · exact absurd (by rw [h1, Bool.true_or]) hcc
        · exact absurd (by rw [h2, Bool.or_true]) hcc
        · exact h3
      simp only [CustomData.CreateForWriting, hroot, exceptBind_ok, hccf, hlp, h3,
        Bool.false_eq_true, if_false, ite_false, if_true, ite_true]

theorem C6_witness :
    GetCurrentWriteRootPath cfg9 = .ok "/r1".toList ∧
    CustomData.CreateForWriting cfg9 uuid6 "ab.dcm".toList =
      .ok { isOwner := true, uuid := uuid6, storageId := "s1".toList,
            path := "ab.dcm".toList } :=
  ⟨by decide,
   (C6_create_for_writing cfg9 uuid6 "ab.dcm".toList "/r1".toList (by decide)
      legacy6 (by decide)).1 (by decide)⟩

def blob10 : Str := "v=1;p=a/b;s=s9;o=1".toList

/-- C10 fails on the code: this blob deserializes successfully, but its
storage id is not registered, so `GetAbsolutePath` throws before the
ownership check — the exception escapes the `noexcept` callback instead
of the success code being returned. -/
theorem C10_counterexample :
    CustomData.FromString "u0".toList blob10 =
      .ok { uuid := "u0".toList, isOwner := true, path := "a/b".toList,
            storageId := "s9".toList } ∧
    StorageRemove cfg9 false fs9 "u0".toList blob10 = .error () := by decide

/-- C10 (amended): whenever the blob deserializes successfully AND the
resulting location resolves against the configured roots, the remove
callback returns the success code — a non-owned record performs no file
deletion at all, and for an owned record every filesystem error while
deleting or pruning is swallowed (no `.error` outcome exists). -/
theorem C10_storage_remove (cfg : Config) (hasDeleter : Bool) (fs : Fs)
    (uuid blob : Str) (cd : CustomData) (p : PathStr)
    (hcd : CustomData.FromString uuid blob = .ok cd)
    (hp : CustomData.GetAbsolutePath cfg cd = .ok p) :
    (cd.isOwner = false → StorageRemove cfg hasDeleter fs uuid blob = .ok (fs, [])) ∧
    (∀ e, StorageRemove cfg hasDeleter fs uuid blob ≠ .error e) := by
  unfold StorageRemove
  rw [hcd, exceptBind_ok, hp, exceptBind_ok]
  constructor
  · intro hno
    simp [hno]
  · intro e
    cases ho : cd.isOwner
    · simp [ho]
    · cases hasDeleter
      · rcases hrm : fsRemoveOp fs p with _ | r <;> simp [ho, hrm]
      · simp [ho]

def blob10b : Str := "v=1;p=/ext/g.dcm;o=0".toList

theorem C10_witness :
    CustomData.FromString "u2".toList blob10b =
      .ok { uuid := "u2".toList, isOwner := false, path := "/ext/g.dcm".toList,
            storageId := [] } ∧
    StorageRemove cfg9 false fs9 "u2".toList blob10b = .ok (fs9, []) :=
  ⟨by decide,
   (C10_storage_remove cfg9 false fs9 "u2".toList blob10b
      { uuid := "u2".toList, isOwner := false, path := "/ext/g.dcm".toList,
        storageId := [] }
      "/ext/g.dcm".toList (by decide) (by decide)).1 rfl⟩

def job8 : JobState :=
  { targetStorageId := "s1".toList, instances := ["i1".toList],
    processedInstancesCount := 0 }

/-- C8 fails on the code: processing the LAST unit successfully still
returns `Continue` (with full progress 1/1); `Success` is only returned
by a later call that finds nothing left to process. -/
theorem C8_counterexample :
    MoveStorageJobStep cfg9 true (fun _ => []) job8 { fs := [], meta := [] } =
      .ok { job := { targetStorageId := "s1".toList, instances := ["i1".toList],
                     processedInstancesCount := 1 },
            st := { fs := [], meta := [] }, status := .Continue,
            progress := some (1, 1) } ∧
    StepStatus.Continue ≠ StepStatus.Success := by decide

/-- C8 (amended): each `Step()` call processes exactly the next
unprocessed unit: when its `MoveInstance` succeeds the counter advances,
fractional progress `processed/total` is reported and `Continue` is
returned — even for the last unit; when it fails, `Failure` is returned
with the counter unchanged and previously processed units untouched; a
call with nothing left returns `Success`. -/
theorem C8_job_step (cfg : Config) (updateOk : Bool) (attachmentsOf : Str → List Str)
    (job : JobState) (st : MoveState) :
    (∀ (h : job.processedInstancesCount < job.instances.length)
        (st2 : MoveState) (b : Bool),
      MoveInstance cfg updateOk st
          (attachmentsOf (job.instances.get ⟨job.processedInstancesCount, h⟩))
          job.targetStorageId = .ok (st2, b) →
      (b = true → MoveStorageJobStep cfg updateOk attachmentsOf job st =
          .ok { job := { job with
                  processedInstancesCount := job.processedInstancesCount + 1 },
                st := st2, status := .Continue,
                progress := some (job.processedInstancesCount + 1,
                  job.instances.length) }) ∧
      (b = false → MoveStorageJobStep cfg updateOk attachmentsOf job st =
          .ok { job := job, st := st2, status := .Failure, progress := none })) ∧
    (¬ job.processedInstancesCount < job.instances.length →
      MoveStorageJobStep cfg updateOk attachmentsOf job st =
        .ok { job := job, st := st, status := .Success, progress := none }) := by
  constructor
  · intro h st2 b hmi
    constructor
    · intro hb
      subst hb
      simp only [MoveStorageJobStep]
      rw [dif_pos h, hmi, exceptBind_ok]
      rfl
    · intro hb
      subst hb
      simp only [MoveStorageJobStep]
      rw [dif_pos h, hmi, exceptBind_ok]
      rfl
  · intro h
    simp only [MoveStorageJobStep]
    rw [dif_neg h]

def st8 : MoveState := { fs := [], meta := [("a1".toList, "v=1;p=/e;o=0".toList)] }

theorem C8_witness :
    MoveInstance cfg9 true st8 ["a1".toList] "s1".toList = .ok (st8, false) ∧
    MoveStorageJobStep cfg9 true (fun _ => ["a1".toList]) job8 st8 =
      .ok { job := job8, st := st8, status := .Failure, progress := none } :=
  ⟨by decide,
   ((C8_job_step cfg9 true (fun _ => ["a1".toList]) job8 st8).1 (by decide) st8 false
      (by decide)).2 rfl⟩

/-- Shared reduction of `MoveAttachment` past the ownership, path,
source-existence and parent-directory steps. -/
theorem MoveAttachment_reduce (cfg : Config) (uo : Bool) (st : MoveState)
    (cd : CustomData) (tid : Str) (cp np : PathStr) (fs1 : Fs)
    (hown : cd.isOwner = true)
    (hrel : cd.IsRelativePath = true)
    (hcp : CustomData.GetAbsolutePath cfg cd = .ok cp)
    (hnp : CustomData.GetAbsolutePath cfg (CustomData.CreateForMoveStorage cd tid) = .ok np)
    (hne : ¬ fsLookup st.fs cp = none)
    (hens : ensureDirExists st.fs (parentPath np) = some fs1) :
    MoveAttachment cfg uo st cd tid =
      match fsLookup fs1 cp with
      | some (.file srcContent) =>
        match fsLookup fs1 np with
        | none => moveFinish cfg uo st.meta cd (CustomData.CreateForMoveStorage cd tid)
            (fsInsert fs1 np (.file srcContent)) cp np
        | some (.file dstContent) =>
          if srcContent = dstContent then
            moveFinish cfg uo st.meta cd (CustomData.CreateForMoveStorage cd tid) fs1 cp np
          else .ok ({ fs := fs1, meta := st.meta }, false)
        | some .dir => .error ()
      | some .dir => .ok ({ fs := fs1, meta := st.meta }, false)
      | none => .ok ({ fs := fs1, meta := st.meta }, false) := by
  simp only [MoveAttachment, hown, hrel, Bool.not_true, Bool.false_eq_true, if_false,
    hcp, exceptBind_ok, hnp, hens]
  rw [if_neg hne]

/-- C2: when the target file already exists, a byte-identical content is
treated as an already-completed prior migration — the move proceeds to
the metadata update and (the host update succeeding) returns true with
the new location persisted, the source deleted and the target kept —
while divergent content makes the move return failure with the
filesystem and the persisted locations completely unchanged. -/
theorem C2_move_attachment_existing_target (cfg : Config) (st : MoveState)
    (cd : CustomData) (tid : Str) (cp np : PathStr) (sc tc : Str)
    (hown : cd.isOwner = true)
    (hrel : cd.IsRelativePath = true)
    (hcp : CustomData.GetAbsolutePath cfg cd = .ok cp)
    (hnp : CustomData.GetAbsolutePath cfg (CustomData.CreateForMoveStorage cd tid) = .ok np)
    (hsrc : fsLookup st.fs cp = some (.file sc))
    (htgt : fsLookup st.fs np = some (.file tc))
    (hpar : fsLookup st.fs (parentPath np) = some .dir)
    (hcpne : cp ≠ [])
    (hsep : np ∉ cp :: ancestorChain cp) :
    (tc = sc →
      MoveAttachment cfg true st cd tid =
        .ok ({ fs := pruneLoop cfg (fsErase st.fs cp) (parentPath cp),
               meta := setAssoc st.meta cd.uuid
                 (CustomData.ToString cfg (CustomData.CreateForMoveStorage cd tid)) }, true) ∧
      fsLookup (pruneLoop cfg (fsErase st.fs cp) (parentPath cp)) cp = none ∧
      fsLookup (pruneLoop cfg (fsErase st.fs cp) (parentPath cp)) np = some (.file sc)) ∧
    (tc ≠ sc → ∀ uo, MoveAttachment cfg uo st cd tid = .ok (st, false)) := by
  have hne : ¬ fsLookup st.fs cp = none := by rw [hsrc]; simp
  have hens : ensureDirExists st.fs (parentPath np) = some st.fs := by
    unfold ensureDirExists
    rw [hpar]
  have hred := fun uo => MoveAttachment_reduce cfg uo st cd tid cp np st.fs
    hown hrel hcp hnp hne hens
  have hnpcp : np ≠ cp := fun hc => hsep (hc ▸ List.mem_cons_self _ _)
  have hnpchain : np ∉ ancestorChain cp := fun hc => hsep (List.mem_cons_of_mem _ hc)
  constructor
  · intro hts
    subst hts
    refine ⟨?_, ?_, ?_⟩
    · rw [hred true]
      simp only [hsrc, htgt]
      rw [if_pos trivial]
      simp only [moveFinish, Bool.not_true, Bool.false_eq_true, if_false, ite_false]
    · exact pruneLoop_none cfg (fsErase st.fs cp) (parentPath cp) cp
        (by rw [fsLookup_erase]; simp)
    · have h1 : fsLookup (fsErase st.fs cp) np = some (.file tc) := by
        rw [fsLookup_erase, if_neg hnpcp, htgt]
      by_cases hch : fsLookup (pruneLoop cfg (fsErase st.fs cp) (parentPath cp)) np
          = fsLookup (fsErase st.fs cp) np
      · rw [hch, h1]
      · exfalso
        rcases pruneLoop_changes cfg (fsErase st.fs cp) (parentPath cp) np hch with h2 | h2
        · exact hnpchain (by rw [ancestorChain_cons cp hcpne, h2]; exact List.mem_cons_self _ _)
        · exact hnpchain (by rw [ancestorChain_cons cp hcpne]; exact List.mem_cons_of_mem _ h2)
  · intro htne uo
    rw [hred uo]
    simp only [hsrc, htgt]
    rw [if_neg (fun hc => htne hc.symm)]

/-- C1: for an owned, relative-path attachment whose copy step succeeded
(or whose target already held identical content), a failing host
metadata update makes `MoveAttachment` delete the target file, prune its
now-empty parent (bounded by the registered roots, which are never
touched), and return failure, while the source file and the persisted
metadata remain unchanged. -/
theorem C1_metadata_failure_rolls_back_target (cfg : Config) (st : MoveState)
    (cd : CustomData) (tid : Str) (cp np : PathStr) (sc : Str) (fs1 : Fs)
    (hown : cd.isOwner = true)
    (hrel : cd.IsRelativePath = true)
    (hcp : CustomData.GetAbsolutePath cfg cd = .ok cp)
    (hnp : CustomData.GetAbsolutePath cfg (CustomData.CreateForMoveStorage cd tid) = .ok np)
    (hsrc : fsLookup st.fs cp = some (.file sc))
    (hens : ensureDirExists st.fs (parentPath np) = some fs1)
    (htgt : fsLookup fs1 np = none ∨ fsLookup fs1 np = some (.file sc))
    (hroot : ∀ r ∈ registeredRoots cfg, fsLookup st.fs r = some FsEntry.dir)
    (hanc : ∀ r ∈ registeredRoots cfg, ∀ a, strictAncestor a r →
      fsLookup st.fs a = some FsEntry.dir)
    (hnpne : np ≠ [])
    (hdiff : cp ∉ np :: ancestorChain np) :
    MoveAttachment cfg false st cd tid =
      .ok ({ fs := pruneLoop cfg (fsErase fs1 np) (parentPath np),
             meta := st.meta }, false) ∧
    fsLookup (pruneLoop cfg (fsErase fs1 np) (parentPath np)) np = none ∧
    fsLookup (pruneLoop cfg (fsErase fs1 np) (parentPath np)) cp = some (.file sc) ∧
    (∀ q, rootOrAbove cfg q →
      fsLookup (pruneLoop cfg (fsErase fs1 np) (parentPath np)) q = fsLookup st.fs q) ∧
    (parentPath np ≠ [] → IsARootPath cfg (parentPath np) = false →
      hasChild (fsErase fs1 np) (parentPath np) = false →
      fsLookup (pruneLoop cfg (fsErase fs1 np) (parentPath np)) (parentPath np) = none) := by
  have hne : ¬ fsLookup st.fs cp = none := by rw [hsrc]; simp
  have hsp := ensureDirExists_spec st.fs (parentPath np) fs1 hens
  have hcp1 : fsLookup fs1 cp = some (.file sc) := by
    rw [(hsp cp).1 (by rw [hsrc]; simp)]
    exact hsrc
  have hred := MoveAttachment_reduce cfg false st cd tid cp np fs1
    hown hrel hcp hnp hne hens
  -- entries at or above a root are directories in `fs1`, and distinct from `np`
  have hfs1dir : ∀ q, rootOrAbove cfg q → fsLookup fs1 q = some FsEntry.dir := by
    intro q hq
    have hstq : fsLookup st.fs q = some FsEntry.dir := by
      obtain ⟨r, hrm, hqr⟩ := hq
      rcases hqr with h1 | h1
      · rw [h1]; exact hroot r hrm
      · exact hanc r hrm q h1
    rw [(hsp q).1 (by rw [hstq]; simp)]
    exact hstq
  have hnpq : ∀ q, rootOrAbove cfg q → np ≠ q := by
    intro q hq hc
    have := hfs1dir q hq
    rw [← hc] at this
    rcases htgt with h1 | h1 <;> rw [h1] at this <;> cases this
  have hcpnp : cp ≠ np := fun hc => hdiff (hc ▸ List.mem_cons_self _ _)
  have hcpchain : cp ∉ ancestorChain np :=
    fun hc => hdiff (List.mem_cons_of_mem _ hc)
  refine ⟨?_, ?_, ?_, ?_, ?_⟩
  · -- the returned value
    rw [hred]
    rcases htgt with h1 | h1 <;> simp only [hcp1, h1] <;>
      simp only [moveFinish, Bool.not_false, if_true, ite_true, fsErase_insert]
  · exact pruneLoop_none cfg (fsErase fs1 np) (parentPath np) np
      (by rw [fsLookup_erase]; simp)
  · have h1 : fsLookup (fsErase fs1 np) cp = some (.file sc) := by
      rw [fsLookup_erase, if_neg hcpnp, hcp1]
    by_cases hch : fsLookup (pruneLoop cfg (fsErase fs1 np) (parentPath np)) cp
        = fsLookup (fsErase fs1 np) cp
    · rw [hch, h1]
    · exfalso
      rcases pruneLoop_changes cfg (fsErase fs1 np) (parentPath np) cp hch with h2 | h2
      · exact hcpchain (by rw [ancestorChain_cons np hnpne, h2]; exact List.mem_cons_self _ _)
      · exact hcpchain (by rw [ancestorChain_cons np hnpne]; exact List.mem_cons_of_mem _ h2)
  · intro q hq
    have hroot2 : ∀ r ∈ registeredRoots cfg, fsLookup (fsErase fs1 np) r ≠ none := by
      intro r hrm
      rw [fsLookup_erase, if_neg (fun hc => hnpq r ⟨r, hrm, Or.inl rfl⟩ hc.symm),
        hfs1dir r ⟨r, hrm, Or.inl rfl⟩]
      simp
    have hanc2 : ∀ r ∈ registeredRoots cfg, ∀ a, strictAncestor a r →
        fsLookup (fsErase fs1 np) a = some FsEntry.dir := by
      intro r hrm a hsa
      rw [fsLookup_erase, if_neg (fun hc => hnpq a ⟨r, hrm, Or.inr hsa⟩ hc.symm)]
      exact hfs1dir a ⟨r, hrm, Or.inr hsa⟩
    rw [pruneLoop_rootOrAbove cfg (fsErase fs1 np) (parentPath np) hroot2 hanc2 q hq]
    rw [fsLookup_erase, if_neg (fun hc => hnpq q hq hc.symm)]
    have hstq : fsLookup st.fs q = some FsEntry.dir := by
      obtain ⟨r, hrm, hqr⟩ := hq
      rcases hqr with h1 | h1
      · rw [h1]; exact hroot r hrm
      · exact hanc r hrm q h1
    rw [(hsp q).1 (by rw [hstq]; simp)]
  · intro h1 h2 h3
    exact pruneLoop_first_removes cfg (fsErase fs1 np) (parentPath np) h1 h2 h3

def cfgM : Config :=
  { orthancCoreRootPath := "/r".toList,
    storagesRootPaths := [("s1".toList, "/r1".toList), ("s2".toList, "/r2".toList)],
    currentWriteStorageId := "s1".toList, maxPathLength := 256,
    otherAttachmentsPrefixPath := [], namingScheme := "{UUID}".toList }

/-- On a filesystem whose root chains are exactly `["/", ""]` and where
`"/"` is a directory, every strict ancestor of a registered root is a
directory. -/
theorem ancestors_of_roots_dir (cfg : Config) (fs : Fs)
    (hch : ∀ r ∈ registeredRoots cfg, ancestorChain r = [['/'], []])
    (hslash : fsLookup fs ['/'] = some FsEntry.dir) :
    ∀ r ∈ registeredRoots cfg, ∀ a, strictAncestor a r →
      fsLookup fs a = some FsEntry.dir := by
  intro r hr a ha
  rcases ha with ⟨hne, hmem⟩
  rw [hch r hr] at hmem
  rcases List.mem_cons.mp hmem with h1 | h2
  · rw [h1]; exact hslash
  · rw [List.mem_singleton] at h2
    exact absurd h2 hne

def st2w : MoveState :=
  { fs := [(['/'], .dir), ("/r".toList, .dir), ("/r1".toList, .dir), ("/r2".toList, .dir),
           ("/r1/f".toList, .file "abc".toList), ("/r2/f".toList, .file "abc".toList)],
    meta := [] }

def cd2w : CustomData :=
  { path := "f".toList, isOwner := true, storageId := "s1".toList, uuid := "u7".toList }

theorem C2_witness :
    MoveAttachment cfgM true st2w cd2w "s2".toList =
      .ok ({ fs := pruneLoop cfgM (fsErase st2w.fs "/r1/f".toList)
               (parentPath "/r1/f".toList),
             meta := setAssoc st2w.meta cd2w.uuid
               (CustomData.ToString cfgM
                 (CustomData.CreateForMoveStorage cd2w "s2".toList)) }, true) ∧
    fsLookup (pruneLoop cfgM (fsErase st2w.fs "/r1/f".toList)
      (parentPath "/r1/f".toList)) "/r1/f".toList = none ∧
    fsLookup (pruneLoop cfgM (fsErase st2w.fs "/r1/f".toList)
      (parentPath "/r1/f".toList)) "/r2/f".toList =
        some (.file "abc".toList) :=
  (C2_move_attachment_existing_target cfgM st2w cd2w "s2".toList
    "/r1/f".toList "/r2/f".toList "abc".toList "abc".toList
    rfl rfl (by decide) (by decide) (by decide) (by decide) (by decide)
    (by decide) (by decide)).1 rfl

def st1w : MoveState :=
  { fs := [(['/'], .dir), ("/r".toList, .dir), ("/r1".toList, .dir), ("/r2".toList, .dir),
           ("/r1/a/f.dcm".toList, .file "abc".toList), ("/r1/a".toList, .dir)],
    meta := [] }

def cd1w : CustomData :=
  { path := "a/f.dcm".toList, isOwner := true, storageId := "s1".toList,
    uuid := "u0".toList }

def fs1w : Fs := ("/r2/a".toList, FsEntry.dir) :: st1w.fs

theorem C1_witness :
    MoveAttachment cfgM false st1w cd1w "s2".toList =
      .ok ({ fs := pruneLoop cfgM (fsErase fs1w "/r2/a/f.dcm".toList)
               (parentPath "/r2/a/f.dcm".toList), meta := st1w.meta }, false) ∧
    fsLookup (pruneLoop cfgM (fsErase fs1w "/r2/a/f.dcm".toList)
      (parentPath "/r2/a/f.dcm".toList)) "/r2/a/f.dcm".toList = none ∧
    fsLookup (pruneLoop cfgM (fsErase fs1w "/r2/a/f.dcm".toList)
      (parentPath "/r2/a/f.dcm".toList)) "/r1/a/f.dcm".toList =
        some (.file "abc".toList) ∧
    fsLookup (pruneLoop cfgM (fsErase fs1w "/r2/a/f.dcm".toList)
      (parentPath "/r2/a/f.dcm".toList)) "/r2/a".toList = none := by
  have h := C1_metadata_failure_rolls_back_target cfgM st1w cd1w "s2".toList
    "/r1/a/f.dcm".toList "/r2/a/f.dcm".toList "abc".toList fs1w
    rfl rfl (by decide) (by decide) (by decide) (by decide)
    (Or.inl (by decide)) (by decide)
    (ancestors_of_roots_dir cfgM st1w.fs (by decide) (by decide))
    (by decide) (by decide)
  exact ⟨h.1, h.2.1, h.2.2.1, h.2.2.2.2 (by decide) (by decide) (by decide)⟩

theorem getAssoc_setAssoc_self (m : List (Str × Str)) (k v : Str) :
    getAssoc (setAssoc m k v) k = some v := by
  induction m with
  | nil => simp [setAssoc, getAssoc]
  | cons e rest ih =>
    by_cases he : e.1 = k
    · simp [setAssoc, getAssoc, he]
    · simp [setAssoc, getAssoc, he, ih]

theorem getAssoc_setAssoc_ne (m : List (Str × Str)) (k v k2 : Str) (h : ¬ k2 = k) :
    getAssoc (setAssoc m k v) k2 = getAssoc m k2 := by
  induction m with
  | nil =>
    have hkk : ¬ k = k2 := fun hc => h hc.symm
    simp [setAssoc, getAssoc, hkk]
  | cons e rest ih =>
    by_cases he : e.1 = k
    · have : ¬ k = k2 := fun hc => h hc.symm
      simp [setAssoc, getAssoc, he, this, ih]
    · simp [setAssoc, getAssoc, he, ih]

theorem fromString_parse3 (u path sid : Str)
    (hp : ∀ c ∈ path, c ≠ ';' ∧ c ≠ '=')
    (hs : ∀ c ∈ sid, c ≠ ';' ∧ c ≠ '=') :
    CustomData.FromString u
      (joinWith ';' ["v=1".toList, "p=".toList ++ path, "s=".toList ++ sid,
        "o=1".toList]) =
      .ok { uuid := u, isOwner := true, path := path, storageId := sid } := by
  have hsplit : splitChar ';' (joinWith ';' ["v=1".toList, "p=".toList ++ path,
      "s=".toList ++ sid, "o=1".toList]) =
      ["v=1".toList, "p=".toList ++ path, "s=".toList ++ sid, "o=1".toList] := by
    show splitChar ';' ("v=1".toList ++ ';' :: (("p=".toList ++ path) ++ ';' ::
      (("s=".toList ++ sid) ++ ';' :: "o=1".toList))) = _
    rw [splitChar_append_sep ';' _ _ (by decide)]
    rw [splitChar_append_sep ';' _ _ (by
      intro c hc
      rcases List.mem_append.mp hc with h | h
      · exact (show ∀ x ∈ "p=".toList, x ≠ ';' by decide) c h
      · exact (hp c h).1)]
    rw [splitChar_append_sep ';' _ _ (by
      intro c hc
      rcases List.mem_append.mp hc with h | h
      · exact (show ∀ x ∈ "s=".toList, x ≠ ';' by decide) c h
      · exact (hs c h).1)]
    rw [splitChar_no_sep ';' _ (by decide)]
  have e1 : splitChar '=' ['v', '=', '1'] = [['v'], ['1']] := by decide
  have e2 : splitChar '=' ('p' :: '=' :: path) = [['p'], path] := by
    show splitChar '=' (['p'] ++ '=' :: path) = _
    rw [splitChar_append_sep '=' _ _ (by decide),
      splitChar_no_sep '=' path (fun c hc => (hp c hc).2)]
  have e3 : splitChar '=' ('s' :: '=' :: sid) = [['s'], sid] := by
    show splitChar '=' (['s'] ++ '=' :: sid) = _
    rw [splitChar_append_sep '=' _ _ (by decide),
      splitChar_no_sep '=' sid (fun c hc => (hs c hc).2)]
  have e4 : splitChar '=' ['o', '=', '1'] = [['o'], ['1']] := by decide
  have hne0 : joinWith ';' ["v=1".toList, "p=".toList ++ path, "s=".toList ++ sid,
      "o=1".toList] ≠ [] := by
    show ('v' :: _ : Str) ≠ []
    exact List.cons_ne_nil _ _
  simp only [CustomData.FromString]
  rw [if_neg hne0, hsplit]
  simp +decide [List.foldl, e1, e2, e3, e4, getAssoc, setAssoc]

theorem fromString_parse2o (u path : Str)
    (hp : ∀ c ∈ path, c ≠ ';' ∧ c ≠ '=') :
    CustomData.FromString u
      (joinWith ';' ["v=1".toList, "p=".toList ++ path, "o=1".toList]) =
      .ok { uuid := u, isOwner := true, path := path, storageId := [] } := by
  have hsplit : splitChar ';' (joinWith ';' ["v=1".toList, "p=".toList ++ path,
      "o=1".toList]) = ["v=1".toList, "p=".toList ++ path, "o=1".toList] := by
    show splitChar ';' ("v=1".toList ++ ';' :: (("p=".toList ++ path) ++ ';' ::
      "o=1".toList)) = _
    rw [splitChar_append_sep ';' _ _ (by decide)]
    rw [splitChar_append_sep ';' _ _ (by
      intro c hc
      rcases List.mem_append.mp hc with h | h
      · exact (show ∀ x ∈ "p=".toList, x ≠ ';' by decide) c h
      · exact (hp c h).1)]
    rw [splitChar_no_sep ';' _ (by decide)]
  have e1 : splitChar '=' ['v', '=', '1'] = [['v'], ['1']] := by decide
  have e2 : splitChar '=' ('p' :: '=' :: path) = [['p'], path] := by
    show splitChar '=' (['p'] ++ '=' :: path) = _
    rw [splitChar_append_sep '=' _ _ (by decide),
      splitChar_no_sep '=' path (fun c hc => (hp c hc).2)]
  have e4 : splitChar '=' ['o', '=', '1'] = [['o'], ['1']] := by decide
  have hne0 : joinWith ';' ["v=1".toList, "p=".toList ++ path, "o=1".toList] ≠ [] := by
    show ('v' :: _ : Str) ≠ []
    exact List.cons_ne_nil _ _
  simp only [CustomData.FromString]
  rw [if_neg hne0, hsplit]
  simp +decide [List.foldl, e1, e2, e4, getAssoc, setAssoc]

theorem fromString_parse2n (u path : Str) (hpn : path ≠ [])
    (hp : ∀ c ∈ path, c ≠ ';' ∧ c ≠ '=') :
    CustomData.FromString u
      (joinWith ';' ["v=1".toList, "p=".toList ++ path, "o=0".toList]) =
      .ok { uuid := u, isOwner := false, path := path, storageId := [] } := by
  have hsplit : splitChar ';' (joinWith ';' ["v=1".toList, "p=".toList ++ path,
      "o=0".toList]) = ["v=1".toList, "p=".toList ++ path, "o=0".toList] := by
    show splitChar ';' ("v=1".toList ++ ';' :: (("p=".toList ++ path) ++ ';' ::
      "o=0".toList)) = _
    rw [splitChar_append_sep ';' _ _ (by decide)]
    rw [splitChar_append_sep ';' _ _ (by
      intro c hc
      rcases List.mem_append.mp hc with h | h
      · exact (show ∀ x ∈ "p=".toList, x ≠ ';' by decide) c h
      · exact (hp c h).1)]
    rw [splitChar_no_sep ';' _ (by decide)]
  have e1 : splitChar '=' ['v', '=', '1'] = [['v'], ['1']] := by decide
  have e2 : splitChar '=' ('p' :: '=' :: path) = [['p'], path] := by
    show splitChar '=' (['p'] ++ '=' :: path) = _
    rw [splitChar_append_sep '=' _ _ (by decide),
      splitChar_no_sep '=' path (fun c hc => (hp c hc).2)]
  have e4 : splitChar '=' ['o', '=', '0'] = [['o'], ['0']] := by decide
  have hne0 : joinWith ';' ["v=1".toList, "p=".toList ++ path, "o=0".toList] ≠ [] := by
    show ('v' :: _ : Str) ≠ []
    exact List.cons_ne_nil _ _
  simp only [CustomData.FromString]
  rw [if_neg hne0, hsplit]
  simp +decide [List.foldl, e1, e2, e4, getAssoc, setAssoc]

/-- C3 (amended): deserializing the serialization reproduces the
observable `isOwner`, `path` and `backendId` fields for every record
whose blob actually carries them: the naming scheme is non-default (or
multiple storages are enabled and the record is owned, so the path piece
is written), the path and storage id contain no `';'`/`'='` (there is no
escaping), the storage id is empty unless it is written (multiple
storages and owned), and a non-owned record has a non-empty path (an
adopted file always records its absolute path; the framework's
behaviour on an empty trailing piece is not pinned down). -/
theorem C3_roundtrip (cfg : Config) (cd : CustomData) (u : Str)
    (hbr : IsDefaultNamingScheme cfg = false ∨
      (IsMultipleStoragesEnabled cfg = true ∧ cd.isOwner = true))
    (hp : ∀ c ∈ cd.path, c ≠ ';' ∧ c ≠ '=')
    (hs : ∀ c ∈ cd.storageId, c ≠ ';' ∧ c ≠ '=')
    (hso : cd.isOwner = false → cd.storageId = [])
    (hsm : IsMultipleStoragesEnabled cfg = false → cd.storageId = [])
    (hpo : cd.isOwner = false → cd.path ≠ []) :
    CustomData.FromString u (CustomData.ToString cfg cd) =
      .ok { uuid := u, isOwner := cd.isOwner, path := cd.path,
            storageId := cd.storageId } := by
  have hDM : (IsDefaultNamingScheme cfg && !IsMultipleStoragesEnabled cfg) = false := by
    rcases hbr with h | ⟨h1, _⟩
    · rw [h]; rfl
    · rw [h1]; simp
  cases ho : cd.isOwner
  · have hD : IsDefaultNamingScheme cfg = false := by
      rcases hbr with h | ⟨_, h2⟩
      · exact h
      · rw [ho] at h2; cases h2
    have hsid : cd.storageId = [] := hso ho
    have hts : CustomData.ToString cfg cd =
        joinWith ';' ["v=1".toList, "p=".toList ++ cd.path, "o=0".toList] := by
      simp [CustomData.ToString, hDM, hD, ho]
    rw [hts, hsid]
    exact fromString_parse2n u cd.path (hpo ho) hp
  · cases hm : IsMultipleStoragesEnabled cfg
    · have hsid : cd.storageId = [] := hsm hm
      have hD : IsDefaultNamingScheme cfg = false := by
        rw [hm] at hDM
        simpa using hDM
      have hts : CustomData.ToString cfg cd =
          joinWith ';' ["v=1".toList, "p=".toList ++ cd.path, "o=1".toList] := by
        simp [CustomData.ToString, hD, ho, hm]
      rw [hts, hsid]
      exact fromString_parse2o u cd.path hp
    · have hts : CustomData.ToString cfg cd =
          joinWith ';' ["v=1".toList, "p=".toList ++ cd.path,
            "s=".toList ++ cd.storageId, "o=1".toList] := by
        simp [CustomData.ToString, hDM, ho, hm]
      rw [hts]
      exact fromString_parse3 u cd.path cd.storageId hp hs

/-- C3 fails on the code: serialization has no escaping, so an adopted
path containing `'='` does not survive the roundtrip — its `key=value`
piece splits into three parts and is discarded, and deserializing the
resulting non-owner record without a path throws. -/
theorem C3_counterexample :
    CustomData.ToString cfg9 (CustomData.CreateForAdoption "/a=b".toList false) =
      "v=1;p=/a=b;o=0".toList ∧
    CustomData.FromString "u3".toList
      (CustomData.ToString cfg9 (CustomData.CreateForAdoption "/a=b".toList false)) =
      .error () := by decide

theorem C3_witness :
    CustomData.FromString "u4".toList
      (CustomData.ToString cfgM
        { path := "x/y.dcm".toList, isOwner := true, storageId := "s1".toList,
          uuid := "u9".toList }) =
      .ok { uuid := "u4".toList, isOwner := true, path := "x/y.dcm".toList,
            storageId := "s1".toList } :=
  C3_roundtrip cfgM
    { path := "x/y.dcm".toList, isOwner := true, storageId := "s1".toList,
      uuid := "u9".toList }
    "u4".toList (by decide) (by decide) (by decide) (by decide) (by decide)
    (by decide)
